import Mathlib

set_option maxRecDepth 10000

/-!
Verification of `src/fix_relations.py` (Nodepress).

The script reads `prisma/schema.prisma`, applies two `re.sub` substitutions

  re.sub(r'(model Post \x7b[^\x7d]*?)\buser(\s+User\s+@relation\(fields: \[authorId\])',
         r'\1author\2', content, flags=re.DOTALL)

(and the analogous one for `model Page`), writes the result back, and prints a
fixed confirmation line.

The embedding below models the text as `List Char` and implements the exact
semantics of Python's `re.sub` for this particular pattern:

* `re.sub` with `count = 0` replaces every non-overlapping match, scanning
  left to right and resuming after the end of each match;
* the pattern starts with the literal `model <Name> \x7b`, so candidate match
  positions are exactly the positions where that literal occurs;
* `[^\x7d]*?` is a lazy quantifier over non-`\x7d` characters: the shortest
  extension for which the rest of the pattern matches is chosen;
* `\b` before `user` demands that the preceding character is not a word
  character.  `\s` is embedded exactly (its Unicode class is a finite set of
  29 code points); `\w` is embedded by its ASCII part, which makes the
  embedded matcher match at least as often as CPython's, and the theorems
  that assert a replacement carry an ASCII restriction on the span so that
  the `\b` test is evaluated only where the two classes coincide;
* `\s+` is a greedy run of at least one whitespace character followed by a
  literal that begins with a non-space character, so it matches exactly the
  maximal whitespace run;
* the replacement `\1author\2` keeps both groups and only replaces the four
  characters `user` by `author`.

`re.DOTALL` only affects `.`, which does not occur in the pattern.
-/

namespace Nodepress

/-- Python `\s` for `str` patterns, exactly: the 29 code points that CPython's
`re` matches with `\s` (the ASCII whitespace range 09-0D, the control
characters 1C-1F, the space, NEL 85, NBSP A0, OGHAM SPACE MARK 1680, the
EN-QUAD..HAIR-SPACE range 2000-200A, LINE and PARAGRAPH SEPARATOR 2028-2029,
NARROW NBSP 202F, MEDIUM MATHEMATICAL SPACE 205F and IDEOGRAPHIC SPACE
3000). -/
def pySpace (c : Char) : Bool :=
  c = '\x09' || c = '\x0a' || c = '\x0b' || c = '\x0c' || c = '\x0d'
    || c = '\x1c' || c = '\x1d' || c = '\x1e' || c = '\x1f'
    || c = '\x20' || c = '\x85' || c = '\xa0' || c = '\u1680'
    || c = '\u2000' || c = '\u2001' || c = '\u2002' || c = '\u2003'
    || c = '\u2004' || c = '\u2005' || c = '\u2006' || c = '\u2007'
    || c = '\u2008' || c = '\u2009' || c = '\u200a'
    || c = '\u2028' || c = '\u2029' || c = '\u202f' || c = '\u205f'
    || c = '\u3000'

/-- The ASCII part of Python `\w`: `[0-9A-Za-z_]`.  On ASCII characters this
is exactly CPython's class; on non-ASCII characters it is a strict
under-approximation (e.g. Python counts `µ` as `\w`), so a `false` answer
here does not imply a Python word boundary.  Consequently the embedded
matcher can only match *more* often than CPython, never less — which keeps
the no-match hypotheses of the no-op theorems sound for the program — and
every theorem that asserts a replacement restricts the characters this
function is queried on (the lazy span before the `user` token, whose last
character carries the `\b` test) to ASCII, where the classes coincide. -/
def wordChar (c : Char) : Bool :=
  c.isAlphanum || c = '_'

/-- ASCII code point test, used to restrict spans to the range on which
`wordChar` agrees with Python `\w`. -/
def asciiChar (c : Char) : Bool :=
  c.toNat < 128

/-- The four characters replaced by the substitution. -/
def userTok : List Char := "user".data

/-- The replacement text written in place of `userTok`. -/
def authorTok : List Char := "author".data

/-- The literal type token `User` of the pattern. -/
def typeTok : List Char := "User".data

/-- The literal attribute fragment of the pattern. -/
def relationFrag : List Char := "@relation(fields: [authorId]".data

/-- The literal opening marker `model <Name> \x7b` of a model block. -/
def marker (name : List Char) : List Char :=
  "model ".data ++ name ++ " \x7b".data

/-- The first targeted model name. -/
def postName : List Char := "Post".data

/-- The second targeted model name. -/
def pageName : List Char := "Page".data

/-- Greedy `\s+`-style split: the maximal leading whitespace run and the rest. -/
def takeSpaces : List Char → List Char × List Char
  | [] => ([], [])
  | c :: cs =>
    if pySpace c then
      let p := takeSpaces cs
      (c :: p.1, p.2)
    else ([], c :: cs)

/-- Attempt to match `\buser\s+User\s+@relation\(fields: \[authorId\]` at the
current position, where `p` is the character immediately before the position.
On success, returns the text of the second capture group
(`\s+User\s+@relation\(fields: \[authorId\]`) and the rest of the input. -/
def matchTail (p : Char) (s : List Char) : Option (List Char × List Char) :=
  if wordChar p then none
  else if userTok.isPrefixOf s then
    let s1 := s.drop 4
    let sp1 := (takeSpaces s1).1
    let r1 := (takeSpaces s1).2
    if sp1.isEmpty then none
    else if typeTok.isPrefixOf r1 then
      let r2 := r1.drop 4
      let sp2 := (takeSpaces r2).1
      let r3 := (takeSpaces r2).2
      if sp2.isEmpty then none
      else if relationFrag.isPrefixOf r3 then
        some (sp1 ++ typeTok ++ sp2 ++ relationFrag, r3.drop relationFrag.length)
      else none
    else none
  else none

/-- Lazy `[^\x7d]*?` search: starting right after the opening marker (with `p`
the character before the current position, initially `\x7b`), find the shortest
non-`\x7d` span after which `matchTail` succeeds.  Returns the span, the second
capture group, and the rest of the input after the whole match. -/
def findSpan (p : Char) : List Char → Option (List Char × List Char × List Char)
  | [] =>
    match matchTail p [] with
    | some (g2, rest) => some ([], g2, rest)
    | none => none
  | c :: cs =>
    match matchTail p (c :: cs) with
    | some (g2, rest) => some ([], g2, rest)
    | none =>
      if c = '\x7d' then none
      else
        match findSpan c cs with
        | some (sp, g2, rest) => some (c :: sp, g2, rest)
        | none => none

/-- One `re.sub` pass for the pattern of model `name`, with explicit fuel
(`fuel ≥ length of the input` suffices; each step consumes at least one
character).  Scans left to right; at a position where the literal marker
occurs it tries to complete a match and, on success, keeps both groups,
writes `author` in place of `user`, and resumes after the match. -/
def substGo (name : List Char) : Nat → List Char → List Char
  | 0, s => s
  | _ + 1, [] => []
  | n + 1, c :: cs =>
    if (marker name).isPrefixOf (c :: cs) then
      match findSpan '\x7b' (List.drop (marker name).length (c :: cs)) with
      | some (sp, g2, rest) =>
        marker name ++ sp ++ authorTok ++ g2 ++ substGo name n rest
      | none => c :: substGo name n cs
    else c :: substGo name n cs

/-- `re.sub(pattern(name), replacement, s)`: one full substitution pass. -/
def subst (name : List Char) (s : List Char) : List Char :=
  substGo name s.length s

/-- The in-memory transformation of the script: the Post substitution
(lines 8-13) followed by the Page substitution (lines 15-20). -/
def fixContent (s : List Char) : List Char :=
  subst pageName (subst postName s)

/-- Whether `pat` occurs as a contiguous substring of `s`. -/
def containsSub (pat : List Char) : List Char → Bool
  | [] => pat.isPrefixOf []
  | c :: cs => pat.isPrefixOf (c :: cs) || containsSub pat cs

/-- Whether the pattern for model `name` matches somewhere in `s`
(an occurrence of the marker from which a complete match can be formed). -/
def hasMatch (name : List Char) : List Char → Bool
  | [] => false
  | c :: cs =>
    ((marker name).isPrefixOf (c :: cs)
        && (findSpan '\x7b' (List.drop (marker name).length (c :: cs))).isSome)
      || hasMatch name cs

/-- The file system as seen by the script: the single path
`prisma/schema.prisma`, holding either some content or nothing. -/
structure FileSystem where
  file : Option (List Char)
deriving DecidableEq

/-- Line 3-4 of the script: `open(..., 'r')` followed by `f.read()`.
Opening a missing file raises (`Except.error`). -/
def readSchema (fs : FileSystem) : Except Unit (List Char) :=
  match fs.file with
  | none => Except.error ()
  | some c => Except.ok c

/-- Lines 22-23 of the script: `open(..., 'w')` followed by `f.write(content)`. -/
def writeSchema (_fs : FileSystem) (c : List Char) : FileSystem :=
  { file := some c }

/-- Line 25 of the script: the fixed confirmation line. -/
def confirmMessage : List Char := "Fixed Post and Page author relations".data

/-- The whole script: read, transform (Post then Page), write, print.
An unhandled read error terminates the process before the write. -/
def runScript (fs : FileSystem) : Except Unit (FileSystem × List Char) :=
  match readSchema fs with
  | Except.error e => Except.error e
  | Except.ok content =>
    Except.ok (writeSchema fs (fixContent content), confirmMessage)

/-- The state of the file system after the process terminates: unchanged when
the script aborted with an error, the written state otherwise. -/
def resultingFS (fs : FileSystem) : FileSystem :=
  match runScript fs with
  | Except.error _ => fs
  | Except.ok r => r.1

/-- Relates an input text to any text obtained from it by replacing some
occurrences of `user` by `author` (and keeping every other character).
Every pass of the substitution produces a text related to its input. -/
inductive Rew : List Char → List Char → Prop
  | nil : Rew [] []
  | keep (c : Char) {s t : List Char} : Rew s t → Rew (c :: s) (c :: t)
  | swap {s t : List Char} : Rew s t → Rew (userTok ++ s) (authorTok ++ t)

/-! Basic facts about the embedded matcher. -/

theorem isPrefixOf_append_self (l t : List Char) : l.isPrefixOf (l ++ t) = true := by
  rw [List.isPrefixOf_iff_prefix]
  exact List.prefix_append l t

theorem marker_cons (name : List Char) :
    marker name = 'm' :: ("odel ".data ++ (name ++ " \x7b".data)) := rfl

theorem userTok_chars : userTok = ['u', 's', 'e', 'r'] := rfl

theorem typeTok_append (t : List Char) : typeTok ++ t = 'U' :: ("ser".data ++ t) := rfl

theorem relationFrag_append (t : List Char) :
    relationFrag ++ t = '@' :: ("relation(fields: [authorId]".data ++ t) := rfl

theorem takeSpaces_append (sp : List Char) (c : Char) (r : List Char)
    (hsp : ∀ x ∈ sp, pySpace x = true) (hc : pySpace c = false) :
    takeSpaces (sp ++ c :: r) = (sp, c :: r) := by
  induction sp with
  | nil => simp [takeSpaces, hc]
  | cons x xs ih =>
    have hx : pySpace x = true := hsp x (by simp)
    have ih' := ih (fun y hy => hsp y (by simp [hy]))
    simp [takeSpaces, hx, ih']

theorem matchTail_eq (p : Char) (sp1 sp2 post : List Char)
    (hp : wordChar p = false)
    (h1 : sp1 ≠ []) (h1s : ∀ x ∈ sp1, pySpace x = true)
    (h2 : sp2 ≠ []) (h2s : ∀ x ∈ sp2, pySpace x = true) :
    matchTail p (userTok ++ (sp1 ++ (typeTok ++ (sp2 ++ (relationFrag ++ post)))))
      = some (sp1 ++ (typeTok ++ (sp2 ++ relationFrag)), post) := by
  have hdrop4 : (userTok ++ (sp1 ++ (typeTok ++ (sp2 ++ (relationFrag ++ post))))).drop 4
      = sp1 ++ (typeTok ++ (sp2 ++ (relationFrag ++ post))) := by
    have h4 : userTok.length = 4 := rfl
    rw [← h4]
    exact List.drop_left userTok (sp1 ++ (typeTok ++ (sp2 ++ (relationFrag ++ post))))
  have hts1 : takeSpaces (sp1 ++ (typeTok ++ (sp2 ++ (relationFrag ++ post))))
      = (sp1, typeTok ++ (sp2 ++ (relationFrag ++ post))) := by
    rw [typeTok_append (sp2 ++ (relationFrag ++ post))]
    exact takeSpaces_append sp1 'U' _ h1s (by decide)
  have hdropU : (typeTok ++ (sp2 ++ (relationFrag ++ post))).drop 4
      = sp2 ++ (relationFrag ++ post) := by
    have h4 : typeTok.length = 4 := rfl
    rw [← h4]
    exact List.drop_left typeTok (sp2 ++ (relationFrag ++ post))
  have hts2 : takeSpaces (sp2 ++ (relationFrag ++ post)) = (sp2, relationFrag ++ post) := by
    rw [relationFrag_append post]
    exact takeSpaces_append sp2 '@' _ h2s (by decide)
  have hdropR : (relationFrag ++ post).drop relationFrag.length = post :=
    List.drop_left relationFrag post
  have h1e : sp1.isEmpty = false := by
    cases sp1 with
    | nil => exact absurd rfl h1
    | cons a as => rfl
  have h2e : sp2.isEmpty = false := by
    cases sp2 with
    | nil => exact absurd rfl h2
    | cons a as => rfl
  simp only [matchTail, hp, Bool.false_eq_true, if_false,
    isPrefixOf_append_self, if_true, hdrop4, hts1, hdropU, hts2, hdropR,
    h1e, h2e]
  simp [isPrefixOf_append_self, List.append_assoc]

theorem matchTail_brace (p : Char) (t : List Char) :
    matchTail p ('\x7d' :: t) = none := by
  have hpre : userTok.isPrefixOf ('\x7d' :: t) = false := by
    simp [userTok_chars, List.isPrefixOf]
  simp [matchTail, hpre]

theorem findSpan_eq (tail g2 post : List Char) :
    ∀ (sp : List Char) (p : Char),
    (∀ x ∈ sp, x ≠ '\x7d') →
    (∀ k, k < sp.length →
      matchTail ((sp.take k).getLastD p) (sp.drop k ++ tail) = none) →
    matchTail (sp.getLastD p) tail = some (g2, post) →
    findSpan p (sp ++ tail) = some (sp, g2, post) := by
  intro sp
  induction sp with
  | nil =>
    intro p _ _ hfin
    cases tail with
    | nil =>
      have hfin' : matchTail p [] = some (g2, post) := hfin
      simp [findSpan, hfin']
    | cons c cs =>
      have hfin' : matchTail p (c :: cs) = some (g2, post) := hfin
      simp [findSpan, hfin']
  | cons x xs ih =>
    intro p hnb hmin hfin
    have h0 : matchTail p (x :: (xs ++ tail)) = none := by
      have := hmin 0 (by simp)
      simpa using this
    have hx : x ≠ '\x7d' := hnb x (by simp)
    have hrec : findSpan x (xs ++ tail) = some (xs, g2, post) := by
      apply ih x (fun y hy => hnb y (by simp [hy]))
      · intro k hk
        have h := hmin (k + 1) (by simpa using Nat.succ_lt_succ hk)
        rw [List.take_succ_cons, List.getLastD_cons, List.drop_succ_cons] at h
        exact h
      · rw [List.getLastD_cons] at hfin
        exact hfin
    simp [findSpan, h0, hx, hrec]

theorem findSpan_stop (tail : List Char) :
    ∀ (sp : List Char) (p : Char),
    (∀ k, k < sp.length →
      matchTail ((sp.take k).getLastD p) (sp.drop k ++ '\x7d' :: tail) = none) →
    findSpan p (sp ++ '\x7d' :: tail) = none := by
  intro sp
  induction sp with
  | nil =>
    intro p _
    simp [findSpan, matchTail_brace]
  | cons x xs ih =>
    intro p hmin
    have h0 : matchTail p (x :: (xs ++ '\x7d' :: tail)) = none := by
      have := hmin 0 (by simp)
      simpa using this
    by_cases hx : x = '\x7d'
    · subst hx
      simp [findSpan, matchTail_brace]
    · have hrec : findSpan x (xs ++ '\x7d' :: tail) = none := by
        apply ih x
        intro k hk
        have h := hmin (k + 1) (by simpa using Nat.succ_lt_succ hk)
        rw [List.take_succ_cons, List.getLastD_cons, List.drop_succ_cons] at h
        exact h
      simp [findSpan, h0, hx, hrec]

theorem substGo_cons (name : List Char) (n : Nat) (c : Char) (cs : List Char) :
    substGo name (n + 1) (c :: cs) =
      if (marker name).isPrefixOf (c :: cs) then
        match findSpan '\x7b' (List.drop (marker name).length (c :: cs)) with
        | some (sp, g2, rest) =>
          marker name ++ sp ++ authorTok ++ g2 ++ substGo name n rest
        | none => c :: substGo name n cs
      else c :: substGo name n cs := rfl

theorem containsSub_cons_false {pat : List Char} {c : Char} {cs : List Char}
    (h : containsSub pat (c :: cs) = false) :
    pat.isPrefixOf (c :: cs) = false ∧ containsSub pat cs = false := by
  have h' := h
  simp only [containsSub, Bool.or_eq_false_iff] at h'
  exact h'

theorem substGo_id (name : List Char) (n : Nat) (s : List Char)
    (h : containsSub (marker name) s = false) : substGo name n s = s := by
  induction s generalizing n with
  | nil => cases n <;> rfl
  | cons c cs ih =>
    cases n with
    | zero => rfl
    | succ n =>
      obtain ⟨h1, h2⟩ := containsSub_cons_false h
      rw [substGo_cons, if_neg (by simp [h1]), ih n h2]

theorem substGo_skip (name : List Char) (pre tail : List Char) (n : Nat)
    (h : ∀ i, i < pre.length →
      (marker name).isPrefixOf (List.drop i (pre ++ tail)) = false) :
    substGo name n (pre ++ tail) = pre ++ substGo name (n - pre.length) tail := by
  induction pre generalizing n with
  | nil => simp
  | cons p ps ih =>
    cases n with
    | zero => simp [substGo]
    | succ n =>
      have h0 : (marker name).isPrefixOf (p :: (ps ++ tail)) = false := by
        have h' := h 0 (by simp)
        simpa using h'
      rw [List.cons_append, substGo_cons, if_neg (by simp [h0])]
      have ih' := ih n (fun i hi => by
        have h' := h (i + 1) (by simpa using Nat.succ_lt_succ hi)
        rw [List.cons_append, List.drop_succ_cons] at h'
        exact h')
      rw [ih']
      simp [Nat.succ_sub_succ]

theorem containsSub_eq_false (pat s : List Char) (hne : pat ≠ [])
    (h : ∀ i, i < s.length → pat.isPrefixOf (List.drop i s) = false) :
    containsSub pat s = false := by
  induction s with
  | nil =>
    obtain ⟨a, as, rfl⟩ := List.exists_cons_of_ne_nil hne
    simp [containsSub, List.isPrefixOf]
  | cons c cs ih =>
    have h0 := h 0 (by simp)
    simp only [List.drop_zero] at h0
    have ih' := ih (fun i hi => by
      have h' := h (i + 1) (by simpa using Nat.succ_lt_succ hi)
      rw [List.drop_succ_cons] at h'
      exact h')
    simp [containsSub, h0, ih']

/-- Master lemma: if the marker of `name` occurs exactly once, at the end of
`pre`, and the first complete pattern occurrence after it is the one spelled
out (span `sp` without `\x7d`, then `user`, whitespace `sp1`, `User`,
whitespace `sp2`, the attribute fragment), then the pass replaces exactly
that `user` by `author` and leaves every other character unchanged. -/
theorem subst_unique_marker (name pre sp sp1 sp2 post : List Char)
    (hpre : ∀ i, i < pre.length →
      (marker name).isPrefixOf (List.drop i
        (pre ++ (marker name ++ (sp ++ (userTok ++
          (sp1 ++ (typeTok ++ (sp2 ++ (relationFrag ++ post))))))))) = false)
    (hnb : ∀ x ∈ sp, x ≠ '\x7d')
    (hb : wordChar (sp.getLastD '\x7b') = false)
    (h1 : sp1 ≠ []) (h1s : ∀ x ∈ sp1, pySpace x = true)
    (h2 : sp2 ≠ []) (h2s : ∀ x ∈ sp2, pySpace x = true)
    (hmin : ∀ k, k < sp.length →
      matchTail ((sp.take k).getLastD '\x7b')
        (sp.drop k ++ (userTok ++ (sp1 ++ (typeTok ++
          (sp2 ++ (relationFrag ++ post)))))) = none)
    (hpost : containsSub (marker name) post = false) :
    subst name (pre ++ (marker name ++ (sp ++ (userTok ++
        (sp1 ++ (typeTok ++ (sp2 ++ (relationFrag ++ post))))))))
      = pre ++ (marker name ++ (sp ++ (authorTok ++
        (sp1 ++ (typeTok ++ (sp2 ++ (relationFrag ++ post))))))) := by
  have hfin : matchTail (sp.getLastD '\x7b')
      (userTok ++ (sp1 ++ (typeTok ++ (sp2 ++ (relationFrag ++ post)))))
      = some (sp1 ++ (typeTok ++ (sp2 ++ relationFrag)), post) :=
    matchTail_eq _ sp1 sp2 post hb h1 h1s h2 h2s
  have hfs : findSpan '\x7b' (sp ++ (userTok ++
      (sp1 ++ (typeTok ++ (sp2 ++ (relationFrag ++ post))))))
      = some (sp, sp1 ++ (typeTok ++ (sp2 ++ relationFrag)), post) :=
    findSpan_eq _ _ _ sp '\x7b' hnb hmin hfin
  simp only [subst]
  rw [substGo_skip name pre _ _ hpre]
  have hlen : (pre ++ (marker name ++ (sp ++ (userTok ++
      (sp1 ++ (typeTok ++ (sp2 ++ (relationFrag ++ post)))))))).length - pre.length
      = (marker name ++ (sp ++ (userTok ++
        (sp1 ++ (typeTok ++ (sp2 ++ (relationFrag ++ post))))))).length := by
    simp only [List.length_append]
    omega
  rw [hlen]
  have hcons : marker name ++ (sp ++ (userTok ++
      (sp1 ++ (typeTok ++ (sp2 ++ (relationFrag ++ post))))))
      = 'm' :: (("odel ".data ++ (name ++ " \x7b".data)) ++ (sp ++ (userTok ++
        (sp1 ++ (typeTok ++ (sp2 ++ (relationFrag ++ post))))))) := by
    rw [marker_cons]
    rfl
  rw [hcons, List.length_cons, substGo_cons, ← hcons,
    if_pos (isPrefixOf_append_self (marker name) _), List.drop_left, hfs]
  simp [substGo_id name _ post hpost, List.append_assoc]

theorem eq_append_drop_of_isPrefixOf {l s : List Char} (h : l.isPrefixOf s = true) :
    s = l ++ s.drop l.length := by
  rw [List.isPrefixOf_iff_prefix] at h
  obtain ⟨t, rfl⟩ := h
  rw [List.drop_left]

theorem takeSpaces_join (s : List Char) : (takeSpaces s).1 ++ (takeSpaces s).2 = s := by
  induction s with
  | nil => rfl
  | cons c cs ih =>
    by_cases h : pySpace c
    · simp [takeSpaces, h, ih]
    · simp [takeSpaces, h]

theorem matchTail_sound (p : Char) (s g2 rest : List Char)
    (h : matchTail p s = some (g2, rest)) :
    s = userTok ++ (g2 ++ rest) := by
  simp only [matchTail] at h
  split_ifs at h with hw hu h1e ht h2e hr
  simp only [Option.some.injEq, Prod.mk.injEq] at h
  obtain ⟨hg2, hrest⟩ := h
  have hs : s = userTok ++ s.drop 4 := by
    have h4 : userTok.length = 4 := rfl
    rw [← h4]
    exact eq_append_drop_of_isPrefixOf hu
  have hs4 : (takeSpaces (s.drop 4)).1 ++ (takeSpaces (s.drop 4)).2 = s.drop 4 :=
    takeSpaces_join _
  have hr1 : (takeSpaces (s.drop 4)).2
      = typeTok ++ (takeSpaces (s.drop 4)).2.drop 4 := by
    have h4 : typeTok.length = 4 := rfl
    rw [← h4]
    exact eq_append_drop_of_isPrefixOf ht
  have hr2 : (takeSpaces ((takeSpaces (s.drop 4)).2.drop 4)).1
        ++ (takeSpaces ((takeSpaces (s.drop 4)).2.drop 4)).2
      = (takeSpaces (s.drop 4)).2.drop 4 :=
    takeSpaces_join _
  have hr3 : (takeSpaces ((takeSpaces (s.drop 4)).2.drop 4)).2
      = relationFrag ++ rest := by
    rw [← hrest]
    exact eq_append_drop_of_isPrefixOf hr
  rw [hs, ← hs4, hr1, ← hr2, hr3, ← hg2]
  simp [List.append_assoc]

theorem findSpan_sound (b : List Char) :
    ∀ (p : Char) (sp g2 rest : List Char),
    findSpan p b = some (sp, g2, rest) →
    b = sp ++ (userTok ++ (g2 ++ rest)) := by
  induction b with
  | nil =>
    intro p sp g2 rest h
    simp only [findSpan] at h
    cases hmt : matchTail p [] with
    | none => rw [hmt] at h; exact absurd h (by simp)
    | some pr =>
      rw [hmt] at h
      obtain ⟨pg2, prest⟩ := pr
      simp only [Option.some.injEq, Prod.mk.injEq] at h
      obtain ⟨hsp, hg2, hrest⟩ := h
      subst hsp hg2 hrest
      have hms := matchTail_sound p [] pg2 prest hmt
      simpa using hms
  | cons c cs ih =>
    intro p sp g2 rest h
    simp only [findSpan] at h
    cases hmt : matchTail p (c :: cs) with
    | some pr =>
      rw [hmt] at h
      obtain ⟨pg2, prest⟩ := pr
      simp only [Option.some.injEq, Prod.mk.injEq] at h
      obtain ⟨hsp, hg2, hrest⟩ := h
      subst hsp hg2 hrest
      have hms := matchTail_sound p (c :: cs) pg2 prest hmt
      simpa using hms
    | none =>
      rw [hmt] at h
      simp only at h
      by_cases hc : c = '\x7d'
      · rw [if_pos hc] at h
        exact absurd h (by simp)
      · rw [if_neg hc] at h
        cases hfs : findSpan c cs with
        | none => rw [hfs] at h; exact absurd h (by simp)
        | some tr =>
          rw [hfs] at h
          obtain ⟨sp', g2', rest'⟩ := tr
          simp only [Option.some.injEq, Prod.mk.injEq] at h
          obtain ⟨hsp, hg2, hrest⟩ := h
          subst hg2 hrest
          have hcs := ih c sp' g2' rest' hfs
          rw [← hsp, hcs]
          rfl

theorem Rew.append_left (x : List Char) {s t : List Char} (h : Rew s t) :
    Rew (x ++ s) (x ++ t) := by
  induction x with
  | nil => simpa using h
  | cons c cs ih => exact Rew.keep c ih

theorem Rew.refl (s : List Char) : Rew s s := by
  induction s with
  | nil => exact Rew.nil
  | cons c cs ih => exact Rew.keep c ih

theorem substGo_rew (name : List Char) (n : Nat) :
    ∀ s : List Char, Rew s (substGo name n s) := by
  induction n with
  | zero => intro s; exact Rew.refl s
  | succ n ih =>
    intro s
    cases s with
    | nil => exact Rew.nil
    | cons c cs =>
      by_cases hm : (marker name).isPrefixOf (c :: cs) = true
      · cases hfs : findSpan '\x7b' (List.drop (marker name).length (c :: cs)) with
        | none =>
          rw [substGo_cons, if_pos hm, hfs]
          exact Rew.keep c (ih cs)
        | some tr =>
          obtain ⟨sp, g2, rest⟩ := tr
          rw [substGo_cons, if_pos hm, hfs]
          have hdecomp : c :: cs
              = marker name ++ (sp ++ (userTok ++ (g2 ++ rest))) := by
            have h1 := eq_append_drop_of_isPrefixOf hm
            have h2 := findSpan_sound _ '\x7b' sp g2 rest hfs
            rw [h1, h2]
          rw [hdecomp]
          have hrew : Rew (userTok ++ (g2 ++ rest))
              (authorTok ++ (g2 ++ substGo name n rest)) :=
            Rew.swap (Rew.append_left g2 (ih rest))
          have := Rew.append_left (marker name ++ sp) hrew
          simpa [List.append_assoc] using this
      · rw [substGo_cons, if_neg (by simp [hm])]
        exact Rew.keep c (ih cs)

/-- Transfer of a prefix back along a rewrite: a nonempty suffix of `mk` that
cannot start inside the replacement text `author` and is a prefix of the
output is already a prefix of the input. -/
theorem rew_prefix_transfer (mk : List Char)
    (hsuf : ∀ x ∈ mk.tails, x = [] ∨
      (x.take authorTok.length ≠ authorTok ∧ x ≠ authorTok.take x.length)) :
    ∀ {s t : List Char}, Rew s t → ∀ x, x ∈ mk.tails → x ≠ [] →
      x.isPrefixOf t = true → x.isPrefixOf s = true := by
  intro s t hrew
  induction hrew with
  | nil => intro x _ _ hpre; exact hpre
  | keep c hr ih =>
    intro x hx hne hpre
    obtain ⟨x0, xs, rfl⟩ := List.exists_cons_of_ne_nil hne
    rw [List.isPrefixOf_cons₂, Bool.and_eq_true] at hpre ⊢
    refine ⟨hpre.1, ?_⟩
    by_cases hxs : xs = []
    · subst hxs; exact List.isPrefixOf_nil_left
    · apply ih xs ?_ hxs hpre.2
      have h1 : (x0 :: xs) <:+ mk := (List.mem_tails _ _).mp hx
      have h2 : xs <:+ (x0 :: xs) := List.suffix_cons x0 xs
      exact (List.mem_tails _ _).mpr (h2.trans h1)
  | @swap s' t' hr ih =>
    intro x hx hne hpre
    exfalso
    rcases hsuf x hx with h0 | ⟨hn1, hn2⟩
    · exact hne h0
    · rw [List.isPrefixOf_iff_prefix, List.prefix_iff_eq_take] at hpre
      by_cases hlen : x.length ≤ authorTok.length
      · apply hn2
        conv_lhs => rw [hpre]
        exact List.take_append_of_le_length hlen
      · push_neg at hlen
        apply hn1
        have hh : x.take authorTok.length = (authorTok ++ t').take authorTok.length := by
          conv_lhs => rw [hpre]
          rw [List.take_take]
          congr 1
          omega
        rw [hh, List.take_left]

theorem containsSub_append_right (mk b a : List Char)
    (h : containsSub mk b = true) : containsSub mk (a ++ b) = true := by
  induction a with
  | nil => simpa using h
  | cons c cs ih => simp [List.cons_append, containsSub, ih]

theorem containsSub_append_split (mk a b : List Char)
    (h : containsSub mk (a ++ b) = true) :
    (∃ y, y ∈ a.tails ∧ y ≠ [] ∧ mk.isPrefixOf (y ++ b) = true)
      ∨ containsSub mk b = true := by
  induction a with
  | nil => right; simpa using h
  | cons c cs ih =>
    rw [List.cons_append] at h
    simp only [containsSub, Bool.or_eq_true] at h
    cases h with
    | inl hp =>
      left
      refine ⟨c :: cs, (List.mem_tails _ _).mpr (List.suffix_refl _), by simp, ?_⟩
      rw [List.cons_append]
      exact hp
    | inr hc =>
      cases ih hc with
      | inl hy =>
        obtain ⟨y, hy1, hy2, hy3⟩ := hy
        left
        refine ⟨y, ?_, hy2, hy3⟩
        have h1 : y <:+ cs := (List.mem_tails _ _).mp hy1
        exact (List.mem_tails _ _).mpr (h1.trans (List.suffix_cons c cs))
      | inr hb => right; exact hb

/-- An occurrence of `mk` in the output of a rewrite maps to an occurrence in
the input, provided `mk` can neither start inside `author` nor contain a
position where `author` starts. -/
theorem rew_contains (mk : List Char) (hne : mk ≠ [])
    (hsufM : ∀ x ∈ mk.tails, x = [] ∨
      (x.take authorTok.length ≠ authorTok ∧ x ≠ authorTok.take x.length))
    (hsufA : ∀ y ∈ authorTok.tails, y = [] ∨
      (mk.take y.length ≠ y ∧ mk ≠ y.take mk.length)) :
    ∀ {s t : List Char}, Rew s t →
      containsSub mk t = true → containsSub mk s = true := by
  intro s t hrew
  induction hrew with
  | nil => intro h; exact h
  | keep c hr ih =>
    intro h
    simp only [containsSub, Bool.or_eq_true] at h ⊢
    cases h with
    | inl hp =>
      left
      exact rew_prefix_transfer mk hsufM (Rew.keep c hr) mk
        ((List.mem_tails _ _).mpr (List.suffix_refl _)) hne hp
    | inr hc => right; exact ih hc
  | @swap s' t' hr ih =>
    intro h
    rcases containsSub_append_split mk authorTok t' h with ⟨y, hy1, hy2, hy3⟩ | hb
    · exfalso
      rcases hsufA y hy1 with h0 | ⟨hn1, hn2⟩
      · exact hy2 h0
      · rw [List.isPrefixOf_iff_prefix, List.prefix_iff_eq_take] at hy3
        by_cases hlen : mk.length ≤ y.length
        · apply hn2
          conv_lhs => rw [hy3]
          exact List.take_append_of_le_length hlen
        · push_neg at hlen
          apply hn1
          have hh : mk.take y.length = (y ++ t').take y.length := by
            conv_lhs => rw [hy3]
            rw [List.take_take]
            congr 1
            omega
          rw [hh, List.take_left]
    · exact containsSub_append_right mk s' userTok (ih hb)

/-- A substitution pass cannot create a new occurrence of a marker `mk`
satisfying the two overlap conditions. -/
theorem subst_no_new_marker (name mk : List Char) (hne : mk ≠ [])
    (hsufM : ∀ x ∈ mk.tails, x = [] ∨
      (x.take authorTok.length ≠ authorTok ∧ x ≠ authorTok.take x.length))
    (hsufA : ∀ y ∈ authorTok.tails, y = [] ∨
      (mk.take y.length ≠ y ∧ mk ≠ y.take mk.length))
    (s : List Char) (h : containsSub mk s = false) :
    containsSub mk (subst name s) = false := by
  by_contra hcon
  rw [Bool.not_eq_false] at hcon
  have hc := rew_contains mk hne hsufM hsufA (substGo_rew name s.length s) hcon
  simp [hc] at h

theorem substGo_id_no_match (name : List Char) (n : Nat) (s : List Char)
    (h : hasMatch name s = false) : substGo name n s = s := by
  induction s generalizing n with
  | nil => cases n <;> rfl
  | cons c cs ih =>
    cases n with
    | zero => rfl
    | succ n =>
      simp only [hasMatch, Bool.or_eq_false_iff] at h
      obtain ⟨h1, h2⟩ := h
      by_cases hm : (marker name).isPrefixOf (c :: cs) = true
      · rw [hm, Bool.true_and] at h1
        have hnone : findSpan '\x7b' (List.drop (marker name).length (c :: cs))
            = none := by
          cases hq : findSpan '\x7b' (List.drop (marker name).length (c :: cs)) with
          | none => rfl
          | some v => rw [hq] at h1; simp at h1
        rw [substGo_cons, if_pos hm, hnone]
        simp [ih n h2]
      · rw [substGo_cons, if_neg (by simp [hm]), ih n h2]

/-! Claim theorems. -/

/-- C1 counterexample: on a text with two `model Post \x7b` blocks that each
contain the target pattern, the transformation replaces the `user` token in
both blocks, so it does not leave every character outside the first
replacement byte-identical, contrary to the claim as stated. -/
theorem C1_counterexample :
    fixContent ("model Post \x7buser User @relation(fields: [authorId] model Post \x7buser User @relation(fields: [authorId]").data
        = ("model Post \x7bauthor User @relation(fields: [authorId] model Post \x7bauthor User @relation(fields: [authorId]").data
      ∧ ("model Post \x7bauthor User @relation(fields: [authorId] model Post \x7bauthor User @relation(fields: [authorId]").data
        ≠ ("model Post \x7bauthor User @relation(fields: [authorId] model Post \x7buser User @relation(fields: [authorId]").data := by
  constructor
  · decide
  · decide

/-- C1 (amended with: the marker `model <Name> \x7b` occurs exactly once in
the text, and the span before the token is ASCII): if the marker of the
targeted model occurs only at the end of `pre`, the span `sp` to the first
qualifying `user` token consists of ASCII non-`\x7d` characters and holds no
earlier qualifying token, and the token is followed by whitespace, `User`,
whitespace and the literal attribute fragment, then the substitution
replaces exactly that `user` token by `author` and every other character of
the text is byte-identical to the input.  The ASCII restriction on `sp`
confines the `\b` test (and every other class test of the span search) to
characters on which the embedded classes agree with CPython's; `pre` and
`post` are unrestricted because no match can start outside the marker
literal.  Instantiating `name` with `postName` or `pageName` gives the Post
and the Page substitution. -/
theorem C1_first_user_renamed (name pre sp sp1 sp2 post : List Char)
    (hpre : ∀ i, i < pre.length →
      (marker name).isPrefixOf (List.drop i
        (pre ++ (marker name ++ (sp ++ (userTok ++
          (sp1 ++ (typeTok ++ (sp2 ++ (relationFrag ++ post))))))))) = false)
    (_hascii : ∀ x ∈ sp, asciiChar x = true)
    (hnb : ∀ x ∈ sp, x ≠ '\x7d')
    (hb : wordChar (sp.getLastD '\x7b') = false)
    (h1 : sp1 ≠ []) (h1s : ∀ x ∈ sp1, pySpace x = true)
    (h2 : sp2 ≠ []) (h2s : ∀ x ∈ sp2, pySpace x = true)
    (hmin : ∀ k, k < sp.length →
      matchTail ((sp.take k).getLastD '\x7b')
        (sp.drop k ++ (userTok ++ (sp1 ++ (typeTok ++
          (sp2 ++ (relationFrag ++ post)))))) = none)
    (hpost : containsSub (marker name) post = false) :
    subst name (pre ++ (marker name ++ (sp ++ (userTok ++
        (sp1 ++ (typeTok ++ (sp2 ++ (relationFrag ++ post))))))))
      = pre ++ (marker name ++ (sp ++ (authorTok ++
        (sp1 ++ (typeTok ++ (sp2 ++ (relationFrag ++ post))))))) :=
  subst_unique_marker name pre sp sp1 sp2 post hpre hnb hb h1 h1s h2 h2s hmin hpost

/-- C1 witness: the amended theorem applied to a concrete one-block schema. -/
theorem C1_first_user_renamed_witness :
    subst postName ([] ++ (marker postName ++ ([] ++ (userTok ++
        ([' '] ++ (typeTok ++ ([' '] ++ (relationFrag ++ (" \x7d").data))))))))
      = [] ++ (marker postName ++ ([] ++ (authorTok ++
        ([' '] ++ (typeTok ++ ([' '] ++ (relationFrag ++ (" \x7d").data))))))) :=
  C1_first_user_renamed postName [] [] [' '] [' '] (" \x7d").data
    (fun i hi => absurd hi (Nat.not_lt_zero i))
    (by simp) (by simp) (by decide) (by decide) (by decide) (by decide) (by decide)
    (fun k hk => absurd hk (Nat.not_lt_zero k))
    (by decide)

/-- C2: if neither the Post pattern nor the Page pattern matches anywhere in
the text, the transformation is the identity (no error is possible: the
transformation is a total function).  The hypothesis is sound for the
program on every text, ASCII or not: the embedded matcher finds every match
CPython finds (`\s` is embedded exactly, and the embedded `\b` test only
rejects ASCII word characters, which Python's `\b` also rejects), so
`hasMatch name s = false` implies that CPython's pass is a no-op as well. -/
theorem C2_no_match_noop (s : List Char)
    (hpost : hasMatch postName s = false) (hpage : hasMatch pageName s = false) :
    fixContent s = s := by
  have h1 : subst postName s = s := substGo_id_no_match postName s.length s hpost
  show subst pageName (subst postName s) = s
  rw [h1]
  exact substGo_id_no_match pageName s.length s hpage

/-- C2 witness: a schema with Post and Page blocks but no target pattern. -/
theorem C2_no_match_noop_witness :
    fixContent ("model Post \x7b id Int \x7d model Page \x7b id Int \x7d").data
      = ("model Post \x7b id Int \x7d model Page \x7b id Int \x7d").data :=
  C2_no_match_noop _ (by decide) (by decide)

/-- C3 counterexample: a Post block with two pattern occurrences.  The first
run replaces only the first occurrence (scanning resumes after the match and
finds no further `model Post \x7b`), but the second run's lazy span walks
across the replaced text and reaches the second occurrence, so running the
transformation twice differs from running it once. -/
theorem C3_counterexample :
    fixContent (fixContent ("model Post \x7buser User @relation(fields: [authorId] user User @relation(fields: [authorId]").data)
      ≠ fixContent ("model Post \x7buser User @relation(fields: [authorId] user User @relation(fields: [authorId]").data := by
  decide

/-- C3 (amended with: the text is ASCII and the once-transformed text has no
residual match, which is the situation the spec describes): if after one
application neither pattern matches any more, a second application changes
nothing.  On ASCII texts the embedded matcher coincides with CPython's, so
both the transformed text and the residual-match test are the program's; the
no-residual-match hypothesis is moreover sound for the program on every
text, because the embedded matcher matches at least as often as CPython
(`\s` is exact and the `\b` test only rejects ASCII word characters, which
Python also rejects). -/
theorem C3_idempotent_no_residual (s : List Char)
    (_hascii : ∀ x ∈ s, asciiChar x = true)
    (hpost : hasMatch postName (fixContent s) = false)
    (hpage : hasMatch pageName (fixContent s) = false) :
    fixContent (fixContent s) = fixContent s := by
  have h1 : subst postName (fixContent s) = fixContent s :=
    substGo_id_no_match postName _ _ hpost
  show subst pageName (subst postName (fixContent s)) = fixContent s
  rw [h1]
  exact substGo_id_no_match pageName _ _ hpage

/-- C3 witness: a one-occurrence schema, idempotent after the first run. -/
theorem C3_idempotent_no_residual_witness :
    fixContent (fixContent ("model Post \x7buser User @relation(fields: [authorId] \x7d").data)
      = fixContent ("model Post \x7buser User @relation(fields: [authorId] \x7d").data :=
  C3_idempotent_no_residual _ (by decide) (by decide) (by decide)

/-- C4 counterexample: the block of the first `model Post \x7b` contains two
pattern occurrences before its first closing brace, but the run replaces
both of them (a second marker occurrence sits between them), contrary to
the claim that exactly the first one is renamed. -/
theorem C4_counterexample :
    fixContent ("model Post \x7buser User @relation(fields: [authorId] model Post \x7buser User @relation(fields: [authorId]\x7d").data
        = ("model Post \x7bauthor User @relation(fields: [authorId] model Post \x7bauthor User @relation(fields: [authorId]\x7d").data
      ∧ ("model Post \x7bauthor User @relation(fields: [authorId] model Post \x7bauthor User @relation(fields: [authorId]\x7d").data
        ≠ ("model Post \x7bauthor User @relation(fields: [authorId] model Post \x7buser User @relation(fields: [authorId]\x7d").data := by
  constructor
  · decide
  · decide

/-- C4 (amended with: the marker occurs exactly once in the text, and the
span before the first token is ASCII): when the block contains a second
pattern occurrence after the first one (both before the block's first
closing brace), a single run renames exactly the first occurrence and leaves
the second occurrence (and everything else) unchanged.  The ASCII
restriction on `sp` confines the span search's `\b` test to characters on
which the embedded classes agree with CPython's. -/
theorem C4_first_occurrence_only (name pre sp sp1 sp2 mid sp1b sp2b post2 : List Char)
    (hpre : ∀ i, i < pre.length →
      (marker name).isPrefixOf (List.drop i
        (pre ++ (marker name ++ (sp ++ (userTok ++ (sp1 ++ (typeTok ++ (sp2 ++ (relationFrag ++ (mid ++ (userTok ++ (sp1b ++ (typeTok ++ (sp2b ++ (relationFrag ++ post2))))))))))))))) = false)
    (_hascii : ∀ x ∈ sp, asciiChar x = true)
    (hnb : ∀ x ∈ sp, x ≠ '\x7d')
    (hb : wordChar (sp.getLastD '\x7b') = false)
    (h1 : sp1 ≠ []) (h1s : ∀ x ∈ sp1, pySpace x = true)
    (h2 : sp2 ≠ []) (h2s : ∀ x ∈ sp2, pySpace x = true)
    (hmin : ∀ k, k < sp.length →
      matchTail ((sp.take k).getLastD '\x7b')
        (sp.drop k ++ (userTok ++ (sp1 ++ (typeTok ++ (sp2 ++ (relationFrag ++ (mid ++ (userTok ++ (sp1b ++ (typeTok ++ (sp2b ++ (relationFrag ++ post2)))))))))))) = none)
    (_hnbmid : ∀ x ∈ mid, x ≠ '\x7d')
    (_hbmid : wordChar (mid.getLastD ']') = false)
    (_h1b : sp1b ≠ []) (_h1bs : ∀ x ∈ sp1b, pySpace x = true)
    (_h2b : sp2b ≠ []) (_h2bs : ∀ x ∈ sp2b, pySpace x = true)
    (hpost : containsSub (marker name) (mid ++ (userTok ++ (sp1b ++ (typeTok ++ (sp2b ++ (relationFrag ++ post2)))))) = false) :
    subst name (pre ++ (marker name ++ (sp ++ (userTok ++ (sp1 ++ (typeTok ++ (sp2 ++ (relationFrag ++ (mid ++ (userTok ++ (sp1b ++ (typeTok ++ (sp2b ++ (relationFrag ++ post2))))))))))))))
      = pre ++ (marker name ++ (sp ++ (authorTok ++ (sp1 ++ (typeTok ++ (sp2 ++ (relationFrag ++ (mid ++ (userTok ++ (sp1b ++ (typeTok ++ (sp2b ++ (relationFrag ++ post2))))))))))))) :=
  subst_unique_marker name pre sp sp1 sp2
    (mid ++ (userTok ++ (sp1b ++ (typeTok ++ (sp2b ++ (relationFrag ++ post2))))))
    hpre hnb hb h1 h1s h2 h2s hmin hpost

/-- C4 witness: one marker, two occurrences, only the first is renamed. -/
theorem C4_first_occurrence_only_witness :
    subst postName ([] ++ (marker postName ++ ([] ++ (userTok ++ ([' '] ++ (typeTok ++ ([' '] ++ (relationFrag ++ ([' '] ++ (userTok ++ ([' '] ++ (typeTok ++ ([' '] ++ (relationFrag ++ []))))))))))))))
      = [] ++ (marker postName ++ ([] ++ (authorTok ++ ([' '] ++ (typeTok ++ ([' '] ++ (relationFrag ++ ([' '] ++ (userTok ++ ([' '] ++ (typeTok ++ ([' '] ++ (relationFrag ++ []))))))))))))) :=
  C4_first_occurrence_only postName [] [] [' '] [' '] [' '] [' '] [' '] []
    (fun i hi => absurd hi (Nat.not_lt_zero i))
    (by simp) (by simp) (by decide) (by decide) (by decide) (by decide) (by decide)
    (fun k hk => absurd hk (Nat.not_lt_zero k))
    (by decide) (by decide) (by decide) (by decide) (by decide) (by decide)
    (by decide)

/-- C5: the transformation only modifies text between a marker and the first
closing brace after it, also when a replacement actually occurs: with the
text's only marker occurrence followed by its block's first qualifying
`user` token, then (after the attribute fragment) the block's first closing
brace `\x7d`, and then a further pattern occurrence, the run replaces the
in-block token and leaves the occurrence after the brace -- and every other
character -- byte-identical.  The ASCII restriction on `sp` confines the
span search's `\b` test to characters on which the embedded classes agree
with CPython's. -/
theorem C5_after_first_brace_unchanged
    (name pre sp sp1 sp2 midb mid2 sp1b sp2b post2 : List Char)
    (hpre : ∀ i, i < pre.length →
      (marker name).isPrefixOf (List.drop i
        (pre ++ (marker name ++ (sp ++ (userTok ++ (sp1 ++ (typeTok ++ (sp2 ++ (relationFrag ++ (midb ++ ('\x7d' :: (mid2 ++ (userTok ++ (sp1b ++ (typeTok ++ (sp2b ++ (relationFrag ++ post2))))))))))))))))) = false)
    (_hascii : ∀ x ∈ sp, asciiChar x = true)
    (hnb : ∀ x ∈ sp, x ≠ '\x7d')
    (hb : wordChar (sp.getLastD '\x7b') = false)
    (h1 : sp1 ≠ []) (h1s : ∀ x ∈ sp1, pySpace x = true)
    (h2 : sp2 ≠ []) (h2s : ∀ x ∈ sp2, pySpace x = true)
    (hmin : ∀ k, k < sp.length →
      matchTail ((sp.take k).getLastD '\x7b')
        (sp.drop k ++ (userTok ++ (sp1 ++ (typeTok ++ (sp2 ++ (relationFrag ++ (midb ++ ('\x7d' :: (mid2 ++ (userTok ++ (sp1b ++ (typeTok ++ (sp2b ++ (relationFrag ++ post2)))))))))))))) = none)
    (_hnbmidb : ∀ x ∈ midb, x ≠ '\x7d')
    (_hb2 : wordChar (mid2.getLastD '\x7d') = false)
    (_h1b : sp1b ≠ []) (_h1bs : ∀ x ∈ sp1b, pySpace x = true)
    (_h2b : sp2b ≠ []) (_h2bs : ∀ x ∈ sp2b, pySpace x = true)
    (hpost : containsSub (marker name) (midb ++ ('\x7d' :: (mid2 ++ (userTok ++ (sp1b ++ (typeTok ++ (sp2b ++ (relationFrag ++ post2)))))))) = false) :
    subst name (pre ++ (marker name ++ (sp ++ (userTok ++ (sp1 ++ (typeTok ++ (sp2 ++ (relationFrag ++ (midb ++ ('\x7d' :: (mid2 ++ (userTok ++ (sp1b ++ (typeTok ++ (sp2b ++ (relationFrag ++ post2))))))))))))))))
      = pre ++ (marker name ++ (sp ++ (authorTok ++ (sp1 ++ (typeTok ++ (sp2 ++ (relationFrag ++ (midb ++ ('\x7d' :: (mid2 ++ (userTok ++ (sp1b ++ (typeTok ++ (sp2b ++ (relationFrag ++ post2))))))))))))))) :=
  subst_unique_marker name pre sp sp1 sp2
    (midb ++ ('\x7d' :: (mid2 ++ (userTok ++ (sp1b ++ (typeTok ++ (sp2b ++ (relationFrag ++ post2))))))))
    hpre hnb hb h1 h1s h2 h2s hmin hpost

/-- C5 witness: the in-block token is renamed, the occurrence after the
block's first closing brace is preserved. -/
theorem C5_after_first_brace_unchanged_witness :
    subst postName ([] ++ (marker postName ++ ([] ++ (userTok ++ ([' '] ++ (typeTok ++ ([' '] ++ (relationFrag ++ ([' '] ++ ('\x7d' :: ([' '] ++ (userTok ++ ([' '] ++ (typeTok ++ ([' '] ++ (relationFrag ++ []))))))))))))))))
      = [] ++ (marker postName ++ ([] ++ (authorTok ++ ([' '] ++ (typeTok ++ ([' '] ++ (relationFrag ++ ([' '] ++ ('\x7d' :: ([' '] ++ (userTok ++ ([' '] ++ (typeTok ++ ([' '] ++ (relationFrag ++ []))))))))))))))) :=
  C5_after_first_brace_unchanged postName [] [] [' '] [' '] [' '] [' '] [' '] [' '] []
    (fun i hi => absurd hi (Nat.not_lt_zero i))
    (by simp) (by simp) (by decide) (by decide) (by decide) (by decide) (by decide)
    (fun k hk => absurd hk (Nat.not_lt_zero k))
    (by simp) (by decide) (by decide) (by decide) (by decide) (by decide)
    (by decide)

/-- C6: text outside the two targeted model blocks is never modified, also
when a replacement actually occurs: with a Post block containing the target
pattern, no other `model Post \x7b` occurrence and no `model Page \x7b`
occurrence at all, the full transformation (Post pass then Page pass)
replaces exactly the block's `user` token, and every character of `pre` and
`post` -- for instance a third model block carrying its own
`user User @relation(fields: [authorId]` pattern -- is byte-identical.  The
Page pass is the identity because the Post pass cannot create a
`model Page \x7b` occurrence.  The ASCII restriction on `sp` confines the
span search's `\b` test to characters on which the embedded classes agree
with CPython's. -/
theorem C6_outside_blocks_untouched (pre sp sp1 sp2 post : List Char)
    (hpre : ∀ i, i < pre.length →
      (marker postName).isPrefixOf (List.drop i
        (pre ++ (marker postName ++ (sp ++ (userTok ++ (sp1 ++ (typeTok ++ (sp2 ++ (relationFrag ++ post))))))))) = false)
    (_hascii : ∀ x ∈ sp, asciiChar x = true)
    (hnb : ∀ x ∈ sp, x ≠ '\x7d')
    (hb : wordChar (sp.getLastD '\x7b') = false)
    (h1 : sp1 ≠ []) (h1s : ∀ x ∈ sp1, pySpace x = true)
    (h2 : sp2 ≠ []) (h2s : ∀ x ∈ sp2, pySpace x = true)
    (hmin : ∀ k, k < sp.length →
      matchTail ((sp.take k).getLastD '\x7b')
        (sp.drop k ++ (userTok ++ (sp1 ++ (typeTok ++ (sp2 ++ (relationFrag ++ post)))))) = none)
    (hpost : containsSub (marker postName) post = false)
    (hpage : containsSub (marker pageName)
      (pre ++ (marker postName ++ (sp ++ (userTok ++ (sp1 ++ (typeTok ++ (sp2 ++ (relationFrag ++ post)))))))) = false) :
    fixContent (pre ++ (marker postName ++ (sp ++ (userTok ++ (sp1 ++ (typeTok ++ (sp2 ++ (relationFrag ++ post))))))))
      = pre ++ (marker postName ++ (sp ++ (authorTok ++ (sp1 ++ (typeTok ++ (sp2 ++ (relationFrag ++ post))))))) := by
  have hstep : subst postName (pre ++ (marker postName ++ (sp ++ (userTok ++ (sp1 ++ (typeTok ++ (sp2 ++ (relationFrag ++ post))))))))
      = pre ++ (marker postName ++ (sp ++ (authorTok ++ (sp1 ++ (typeTok ++ (sp2 ++ (relationFrag ++ post))))))) :=
    subst_unique_marker postName pre sp sp1 sp2 post
      hpre hnb hb h1 h1s h2 h2s hmin hpost
  have hnew : containsSub (marker pageName)
      (subst postName (pre ++ (marker postName ++ (sp ++ (userTok ++ (sp1 ++ (typeTok ++ (sp2 ++ (relationFrag ++ post))))))))) = false :=
    subst_no_new_marker postName (marker pageName) (by decide) (by decide)
      (by decide) _ hpage
  rw [hstep] at hnew
  simp only [fixContent]
  rw [hstep]
  exact substGo_id pageName _ _ hnew

/-- C6 witness: a third model block with its own pattern sits before the
Post block; the Post token is renamed and the third block is untouched. -/
theorem C6_outside_blocks_untouched_witness :
    fixContent (("model Comment \x7buser User @relation(fields: [authorId], references: [id])\x7d ").data ++ (marker postName ++ ([] ++ (userTok ++ ([' '] ++ (typeTok ++ ([' '] ++ (relationFrag ++ (" \x7d").data))))))))
      = ("model Comment \x7buser User @relation(fields: [authorId], references: [id])\x7d ").data ++ (marker postName ++ ([] ++ (authorTok ++ ([' '] ++ (typeTok ++ ([' '] ++ (relationFrag ++ (" \x7d").data))))))) :=
  C6_outside_blocks_untouched
    ("model Comment \x7buser User @relation(fields: [authorId], references: [id])\x7d ").data
    [] [' '] [' '] (" \x7d").data
    (by decide)
    (by simp) (by simp) (by decide) (by decide) (by decide) (by decide) (by decide)
    (fun k hk => absurd hk (Nat.not_lt_zero k))
    (by decide)
    (by decide)

/-- C7: when the input file does not exist, the read on line 3 raises before
any write is attempted, and the file-system state is unchanged: no file is
created. -/
theorem C7_missing_file_no_write (fs : FileSystem) (h : fs.file = none) :
    runScript fs = Except.error () ∧ resultingFS fs = fs := by
  constructor
  · simp [runScript, readSchema, h]
  · simp [resultingFS, runScript, readSchema, h]

/-- C7 witness: the empty file system. -/
theorem C7_missing_file_no_write_witness :
    runScript ⟨none⟩ = Except.error ()
      ∧ resultingFS ⟨none⟩ = (⟨none⟩ : FileSystem) :=
  C7_missing_file_no_write ⟨none⟩ rfl

/-- C8: for every file content, the script writes the transformed content and
emits exactly the fixed confirmation line, unconditionally -- whether or not
the transformation changed anything. -/
theorem C8_unconditional_confirmation (c : List Char) :
    runScript ⟨some c⟩
        = Except.ok (writeSchema ⟨some c⟩ (fixContent c), confirmMessage)
      ∧ confirmMessage = "Fixed Post and Page author relations".data := by
  constructor
  · rfl
  · rfl

/-- C9 counterexample: the Post and Page substitutions do not commute.  In
this text a Page marker precedes two Post blocks and three pattern
occurrences; running Post first replaces occurrences one and two and then
Page reaches the third, while running Page first replaces occurrence one,
after which Post replaces only occurrence two and the third survives. -/
theorem C9_counterexample :
    subst pageName (subst postName ("model Page \x7bmodel Post \x7buser User @relation(fields: [authorId] model Post \x7buser User @relation(fields: [authorId] user User @relation(fields: [authorId]").data)
      ≠ subst postName (subst pageName ("model Page \x7bmodel Post \x7buser User @relation(fields: [authorId] model Post \x7buser User @relation(fields: [authorId] user User @relation(fields: [authorId]").data) := by
  decide

/-- C9 (amended with: the text does not contain both kinds of markers): if
the `model Post \x7b` marker or the `model Page \x7b` marker is absent from
the text, the two substitutions commute.  The pass for the absent marker is
the identity, and no substitution ever creates a new marker occurrence. -/
theorem C9_commute_without_both_markers (s : List Char)
    (h : containsSub (marker postName) s = false
      ∨ containsSub (marker pageName) s = false) :
    subst pageName (subst postName s) = subst postName (subst pageName s) := by
  cases h with
  | inl hp =>
    have h1 : subst postName s = s := substGo_id postName s.length s hp
    have h2 : containsSub (marker postName) (subst pageName s) = false :=
      subst_no_new_marker pageName (marker postName) (by decide) (by decide)
        (by decide) s hp
    have h3 : subst postName (subst pageName s) = subst pageName s :=
      substGo_id postName _ _ h2
    rw [h1, h3]
  | inr hq =>
    have h1 : subst pageName s = s := substGo_id pageName s.length s hq
    have h2 : containsSub (marker pageName) (subst postName s) = false :=
      subst_no_new_marker postName (marker pageName) (by decide) (by decide)
        (by decide) s hq
    have h3 : subst pageName (subst postName s) = subst postName s :=
      substGo_id pageName _ _ h2
    rw [h1, h3]

/-- C9 witness: a text with a Page block and no Post marker commutes. -/
theorem C9_commute_without_both_markers_witness :
    subst pageName (subst postName ("model Page \x7buser User @relation(fields: [authorId] \x7d").data)
      = subst postName (subst pageName ("model Page \x7buser User @relation(fields: [authorId] \x7d").data) :=
  C9_commute_without_both_markers _ (Or.inl (by decide))

end Nodepress
